import Mathlib

/-!
Verification of the core components of the Cyber-Diagnostics-Lab scanner:
the risk-scoring engine (`src/core/risk_engine/calculate_risk.py`), the scan
orchestrator (`src/core/orchestrator.py`) and the multi-tier cache
(`src/core/cache_manager.py`).

Modelling conventions:
* Python floats are modelled as exact rationals (`ℚ`); Python's `int(x)` on
  the nonnegative values arising here is `Int.floor`.
* Python dicts are modelled as association lists in insertion order
  (`alGet` / `alSet` / `alErase` below reproduce dict lookup, ordered
  overwrite-or-append update, and key deletion).
* Wall-clock time (`time.time()`) is an explicit rational parameter.
* `str.lower()` is modelled char-wise (`strLower`), and string comparison
  (used by Python's `sorted`) is code-point lexicographic, as in CPython.
-/

/-- Python dict lookup on an association list (first matching key). -/
def alGet {β : Type} (l : List (String × β)) (k : String) : Option β :=
  (l.find? (fun p => p.1 == k)).map (fun p => p.2)

/-- Python dict update `d[k] = v`: replaces the entry in place when the key
is present, otherwise appends at the end (insertion order). -/
def alSet {β : Type} (l : List (String × β)) (k : String) (v : β) : List (String × β) :=
  if l.any (fun p => p.1 == k) then
    l.map (fun p => if p.1 == k then (k, v) else p)
  else
    l ++ [(k, v)]

/-- Python dict deletion `del d[k]` (no-op when the key is absent). -/
def alErase {β : Type} (l : List (String × β)) (k : String) : List (String × β) :=
  l.filter (fun p => !(p.1 == k))

/-- Char-wise ASCII/Unicode lowering, modelling Python `str.lower()` for the
identifiers appearing in this code base. -/
def strLower (s : String) : String :=
  String.mk (s.data.map Char.toLower)

/-- A single reported issue, as produced by a module: the `title`,
`description` and `severity` keys of the finding dict.  `severity` is an
`Option` because Python reads it with `finding.get("severity", "info")`. -/
structure Finding where
  title : String
  description : String
  severity : Option String
deriving DecidableEq

/-- `RiskEngine.SEVERITY_SCORES` from `calculate_risk.py`. -/
def severityScores : List (String × ℚ) :=
  [("critical", 9), ("high", 7), ("medium", 5), ("low", 3), ("info", 1/10)]

/-- The effective severity string of a finding:
`finding.get("severity", "info").lower()`. -/
def sevOf (f : Finding) : String :=
  strLower (f.severity.getD "info")

/-- `SEVERITY_SCORES.get(severity, 0)`. -/
def scoreOf (s : String) : ℚ :=
  (severityScores.lookup s).getD 0

/-- The derived base (CVSS-like) score attached to a finding in
`RiskEngine._extract_findings`. -/
def cvssScore (f : Finding) : ℚ :=
  scoreOf (sevOf f)

/-- Scan results as consumed by the risk engine: an ordered mapping from
module key to an optional findings list (`none` models a module result
that is not a dict or has no `"findings"` key). -/
def ScanResults : Type := List (String × Option (List Finding))

/-- `RiskEngine._extract_findings`: flatten the findings of every module
except the `"metadata"` entry, in order.  (The Python code also tags each
finding dict with its module key and `cvss_score`; the tag fields do not
affect any property proved here, the derived score is `cvssScore`.) -/
def extractFindings (sr : ScanResults) : List Finding :=
  (sr.filter (fun p => !(p.1 == "metadata"))).flatMap (fun p => p.2.getD [])

/-- The weight applied in `RiskEngine._calculate_overall_score`:
critical findings count 1.5, everything else 1. -/
def findingWeight (f : Finding) : ℚ :=
  if sevOf f = "critical" then 3/2 else 1

/-- The `weighted_sum` accumulator loop of `_calculate_overall_score`. -/
def weightedSum (fs : List Finding) : ℚ :=
  fs.foldl (fun acc f => acc + scoreOf (sevOf f) * findingWeight f) 0

/-- `RiskEngine._calculate_overall_score`: 0 for no findings, otherwise
`min(weighted_sum / (len(findings) * 1.25), 10.0)`. -/
def overallScore (fs : List Finding) : ℚ :=
  if fs.isEmpty then 0
  else min (weightedSum fs / ((fs.length : ℚ) * (5/4))) 10

/-- The five-bucket count dict built by `RiskEngine._get_severity_breakdown`. -/
structure SeverityBreakdown where
  critical : ℕ
  high : ℕ
  medium : ℕ
  low : ℕ
  info : ℕ
deriving DecidableEq

/-- `RiskEngine._get_severity_breakdown`: count findings per known severity;
a severity not among the five keys increments nothing. -/
def severityBreakdown (fs : List Finding) : SeverityBreakdown where
  critical := fs.countP (fun f => sevOf f == "critical")
  high := fs.countP (fun f => sevOf f == "high")
  medium := fs.countP (fun f => sevOf f == "medium")
  low := fs.countP (fun f => sevOf f == "low")
  info := fs.countP (fun f => sevOf f == "info")

/-- `RiskEngine._get_risk_level` thresholds. -/
def riskLevel (score : ℚ) : String :=
  if score ≥ 8 then "Critical"
  else if score ≥ 6 then "High"
  else if score ≥ 4 then "Medium"
  else if score ≥ 2 then "Low"
  else "Minimal"

/-- The ordered `category_keywords` dict of `RiskEngine._categorize_by_owasp`
(Python dicts iterate in insertion order, so this list order is the fixed
priority order of the categories). -/
def categoryKeywords : List (String × List String) :=
  [("A01", ["access", "permission", "authentication", "authorization", "broken auth"]),
   ("A02", ["ssl", "tls", "encryption", "cryptograph", "certificate", "password"]),
   ("A03", ["injection", "sql", "command", "ldap", "xss"]),
   ("A04", ["design", "flaw", "architecture", "threat model"]),
   ("A05", ["misconfiguration", "config", "default", "debug", "headers", "ports"]),
   ("A06", ["vulnerable", "outdated", "component", "library", "framework", "version", "cve", "plugin"]),
   ("A07", ["session", "mfa", "password", "credential", "factor authentication"]),
   ("A08", ["integrity", "signing", "serialization", "dependency", "artifact"]),
   ("A09", ["logging", "monitoring", "detection", "alerting"]),
   ("A10", ["ssrf", "request forgery", "redirect"])]

/-- The keys of `RiskEngine.OWASP_CATEGORIES`. -/
def owaspCodes : List String :=
  ["A01", "A02", "A03", "A04", "A05", "A06", "A07", "A08", "A09", "A10"]

/-- Substring containment on char lists (Python's `keyword in finding_text`). -/
def listContainsSub (hay needle : List Char) : Bool :=
  (List.range (hay.length + 1)).any (fun i => needle.isPrefixOf (hay.drop i))

/-- `needle in hay` on strings. -/
def strContains (hay needle : String) : Bool :=
  listContainsSub hay.data needle.data

/-- `(finding.get("title","") + " " + finding.get("description","")).lower()`. -/
def findingText (f : Finding) : String :=
  strLower (f.title ++ " " ++ f.description)

/-- Whether one category's keyword list matches a finding's text:
`any(keyword in finding_text for keyword in keywords)`. -/
def catMatches (f : Finding) (ck : String × List String) : Bool :=
  ck.2.any (fun kw => strContains (findingText f) kw)

/-- The category a finding lands in: the first category of
`categoryKeywords` whose keywords match (the inner loop with `break`),
falling back to `"A05"` when nothing matched (`if not mapped`). -/
def assignOwasp (f : Finding) : String :=
  match categoryKeywords.find? (catMatches f) with
  | some ck => ck.1
  | none => "A05"

/-- One iteration of the `_categorize_by_owasp` loop: append the finding to
its assigned category's list. -/
def owaspStep (m : String → List Finding) (f : Finding) : String → List Finding :=
  fun code => if assignOwasp f == code then m code ++ [f] else m code

/-- `RiskEngine._categorize_by_owasp`: the per-category findings lists after
processing the whole findings list (each category's count is the length of
its list). -/
def owaspMapping (fs : List Finding) : String → List Finding :=
  fs.foldl owaspStep (fun _ => [])

/-- The report dict returned by `RiskEngine.calculate_risk` (the
`recommendations` entry, unused by any claim, is omitted). -/
structure RiskReport where
  overall_score : ℚ
  severity_breakdown : SeverityBreakdown
  owasp_map : String → List Finding
  risk_level : String

/-- `RiskEngine.calculate_risk`. -/
def calculateRisk (sr : ScanResults) : RiskReport :=
  let fs := extractFindings sr
  { overall_score := overallScore fs
    severity_breakdown := severityBreakdown fs
    owasp_map := owaspMapping fs
    risk_level := riskLevel (overallScore fs) }


/-! ## Orchestrator (`src/core/orchestrator.py`) -/

/-- The keys of the `module_map` dict in `ScanOrchestrator.run_scan`. -/
def moduleKeys : List String :=
  ["identity_infra", "security_config", "threat_intel", "web_app_risk", "behavioral"]

/-- The filtering step of `run_scan`: keep the (already comma-split and
stripped) selected ids that are keys of `module_map`; unknown ids are
silently dropped. -/
def filterModules (selected : List String) : List String :=
  selected.filter (fun m => moduleKeys.contains m)

/-- The observable behaviour of one call into external code: it either
returns a value or raises an exception carrying a message. -/
inductive ModuleOutcome (α : Type) where
  | ok (result : α)
  | raises (msg : String)
deriving DecidableEq

/-- An entry of the orchestrator's `self.results` dict.  `α` is the opaque
raw result type of a successful module, `τ` that of the technology-detection
step. -/
inductive OrchEntry (α τ : Type) where
  | mod (r : α)
  | modError (status : String) (errMsg : String) (findings : List Finding)
  | tech (t : τ)
  | techError (errMsg : String) (technologies : List String)
  | metadata (modulesExecuted : List String) (totalFindings : ℕ)
deriving DecidableEq

/-- `len(r.get("findings", [])) if isinstance(r, dict) else 0` for one
results entry, given the findings lists of the opaque raw results. -/
def entryFindingsCount {α τ : Type} (mFind : α → List Finding) (tFind : τ → List Finding) :
    OrchEntry α τ → ℕ
  | .mod r => (mFind r).length
  | .modError _ _ fs => fs.length
  | .tech t => (tFind t).length
  | .techError _ _ => 0
  | .metadata _ _ => 0

/-- `ScanOrchestrator.run_scan`, with external effects made explicit:
`tech` is the outcome of `TechDetectionModule.run`, `beh k` that of module
`k`'s construction-plus-`execute`, and `mFind`/`tFind` read the findings
lists out of raw results (used only for the metadata entry).  Timestamps of
the metadata entry (wall-clock values) are not modelled. -/
def runScan {α τ : Type} (selected : List String) (tech : ModuleOutcome τ)
    (beh : String → ModuleOutcome α) (mFind : α → List Finding)
    (tFind : τ → List Finding) : List (String × OrchEntry α τ) :=
  let techEntry : OrchEntry α τ :=
    match tech with
    | .ok t => .tech t
    | .raises m => .techError m []
  let res0 := alSet ([] : List (String × OrchEntry α τ)) "tech_stack" techEntry
  let res1 := (filterModules selected).foldl
    (fun res k =>
      alSet res k
        (match beh k with
         | .ok r => OrchEntry.mod r
         | .raises m => OrchEntry.modError "error" m []))
    res0
  alSet res1 "metadata"
    (.metadata (res1.map (fun p => p.1))
      ((res1.map (fun p => entryFindingsCount mFind tFind p.2)).sum))

/-! ### Progress reporting (`run_scan`'s `progress_callback`) -/

/-- The sub-callback rescaling of `make_sub_callback`:
`int(s_pct + (module_internal_pct / 100.0) * (e_pct - s_pct))`.
All values arising in a run are nonnegative, where Python's `int`
truncation coincides with `Int.floor`. -/
def subPct (s e p : ℚ) : ℤ :=
  ⌊s + p / 100 * (e - s)⌋

/-- The status message a sub-callback forwards:
`f"{m_key}: {status_msg}" if status_msg else m_key`. -/
def subMsg (key : String) (m : Option String) : String :=
  match m with
  | some msg => key ++ ": " ++ msg
  | none => key

/-- The `(percent, message)` calls delivered while one module occupies the
slice `[s, e)`: the unconditional `sub_cb(0, "Starting...")`, the module's
own internal reports, and the unconditional `sub_cb(100, "Completed")`. -/
def moduleBlock (key : String) (s e : ℚ) (rep : List (ℚ × Option String)) :
    List (ℤ × String) :=
  (subPct s e 0, subMsg key (some "Starting...")) ::
    (rep.map (fun pr => (subPct s e pr.1, subMsg key pr.2)) ++
      [(subPct s e 100, subMsg key (some "Completed"))])

/-- The concatenated per-module blocks, walking the slices of width `r`
starting at `s` (in exact arithmetic `5 + i*r` equals this running sum). -/
def blocksFrom (r : ℚ) (reports : String → List (ℚ × Option String)) :
    ℚ → List String → List (ℤ × String)
  | _, [] => []
  | s, k :: ks => moduleBlock k s (s + r) (reports k) ++ blocksFrom r reports (s + r) ks

/-- Every `(percent, message)` pair delivered to a non-`None`
`progress_callback` during `run_scan`, in order: tech-detection start/end,
the per-module blocks over `[5, 95)`, then finalizing and completion.
`reports k` is the sequence of `(module_internal_pct, status_msg)` calls
module `k` itself makes on its sub-callback. -/
def runScanEvents (selected : List String)
    (reports : String → List (ℚ × Option String)) : List (ℤ × String) :=
  let filtered := filterModules selected
  let n := filtered.length
  let r : ℚ := if 0 < n then 90 / (n : ℚ) else 0
  [((0 : ℤ), "Detecting Tech Stack"), ((5 : ℤ), "Tech Stack Detected")] ++
    blocksFrom r reports 5 filtered ++
    [((95 : ℤ), "Finalizing results..."), ((100 : ℤ), "Scan Complete")]

/-- The percent components of the delivered progress calls. -/
def progressPercents (selected : List String)
    (reports : String → List (ℚ × Option String)) : List ℤ :=
  (runScanEvents selected reports).map (fun pr => pr.1)

/-! ## Cache (`src/core/cache_manager.py`) -/

/-- An entry of `CacheManager.memory_cache`.  `created_at` is optional
because the promotion path of `get` stores no `created_at`. -/
structure MemEntry (α : Type) where
  data : α
  expires_at : ℚ
  created_at : Option ℚ
  hit_count : ℕ
deriving DecidableEq

/-- A row of the SQLite `cache` table.  The serialized payload is modelled
by the value itself (`json.dumps`/`json.loads` round-trip). -/
structure DbEntry (α : Type) where
  data : α
  ttl_seconds : ℚ
  created_at : ℚ
  expires_at : ℚ
  hit_count : ℕ
deriving DecidableEq

/-- The two tiers of `CacheManager`. -/
structure CacheState (α : Type) where
  mem : List (String × MemEntry α)
  db : List (String × DbEntry α)
deriving DecidableEq

/-- `CacheManager.set` on the happy path (no storage exception): store into
both tiers with `expires_at = now + ttl` and return `True`. -/
def cacheSet {α : Type} (st : CacheState α) (k : String) (v : α) (ttl now : ℚ) :
    CacheState α × Bool :=
  ({ mem := alSet st.mem k ⟨v, now + ttl, some now, 0⟩
     db := alSet st.db k ⟨v, ttl, now, now + ttl, 0⟩ }, true)

/-- The database half of `CacheManager.get`: on an unexpired row, bump its
hit count, promote it into the memory tier and return the data; on an
expired row, delete it (lazy expiry); on a missing row, miss. -/
def dbGet {α : Type} (st : CacheState α) (k : String) (now : ℚ) :
    Option α × CacheState α :=
  match alGet st.db k with
  | some d =>
      if now < d.expires_at then
        (some d.data,
         { mem := alSet st.mem k ⟨d.data, d.expires_at, none, d.hit_count + 1⟩
           db := alSet st.db k { d with hit_count := d.hit_count + 1 } })
      else
        (none, { st with db := alErase st.db k })
  | none => (none, st)

/-- `CacheManager.get`: memory tier first (hit bumps `hit_count`; an expired
memory entry is deleted and the database tier is consulted), then the
database tier. -/
def cacheGet {α : Type} (st : CacheState α) (k : String) (now : ℚ) :
    Option α × CacheState α :=
  match alGet st.mem k with
  | some m =>
      if now < m.expires_at then
        (some m.data, { st with mem := alSet st.mem k { m with hit_count := m.hit_count + 1 } })
      else
        dbGet { st with mem := alErase st.mem k } k now
  | none => dbGet st k now

/-- The dict returned by `CacheManager.get_stats`. -/
structure CacheStats where
  total_entries : ℕ
  valid_entries : ℕ
  expired_entries : ℕ
  total_hits : ℕ
  memory_entries : ℕ
deriving DecidableEq

/-- `CacheManager.get_stats` (the SQL aggregates over the `cache` table plus
`len(self.memory_cache)`). -/
def getStats {α : Type} (st : CacheState α) (now : ℚ) : CacheStats :=
  let total := st.db.length
  let valid := st.db.countP (fun p => now < p.2.expires_at)
  { total_entries := total
    valid_entries := valid
    expired_entries := total - valid
    total_hits := (st.db.map (fun p => p.2.hit_count)).sum
    memory_entries := st.mem.length }

/-! ## Cache key generation (`APICallCacher._generate_cache_key`) -/

/-- Code-point lexicographic strict comparison on char lists, as CPython
compares strings. -/
def charListLt : List Char → List Char → Bool
  | [], [] => false
  | [], _ :: _ => true
  | _ :: _, [] => false
  | a :: as, b :: bs => if a = b then charListLt as bs else decide (a < b)

/-- Code-point lexicographic non-strict comparison on char lists. -/
def charListLe : List Char → List Char → Bool
  | [], _ => true
  | _ :: _, [] => false
  | a :: as, b :: bs => if a = b then charListLe as bs else decide (a < b)

/-- Python tuple comparison `(k1, v1) <= (k2, v2)` on string pairs, the
order used by `sorted(params.items())`. -/
def pairLe (a b : String × String) : Prop :=
  (if a.1 = b.1 then charListLe a.2.data b.2.data else charListLt a.1.data b.1.data) = true

instance : DecidableRel pairLe := fun a b =>
  inferInstanceAs
    (Decidable ((if a.1 = b.1 then charListLe a.2.data b.2.data else charListLt a.1.data b.1.data) = true))

/-- `json.dumps(sorted_params)` on a list of string pairs: the exact
escaping of JSON strings is irrelevant to every property proved here, only
that the serialization is a fixed function of the sorted list. -/
def jsonDumpsPairs (l : List (String × String)) : String :=
  "[" ++ String.intercalate ", " (l.map (fun p => "[\"" ++ p.1 ++ "\", \"" ++ p.2 ++ "\"]")) ++ "]"

/-- The `key_string` built by `APICallCacher._generate_cache_key`:
`f"{method}:{url}"`, extended by `':' + json.dumps(sorted(params.items()))`
when `params` is non-empty (an empty dict is falsy).  Python's `sorted` is a
stable sort under tuple comparison; with a total preorder its output is the
insertion sort below. -/
def cacheKeyString (url : String) (params : List (String × String)) (method : String) :
    String :=
  let key0 := method ++ ":" ++ url
  if params.isEmpty then key0
  else key0 ++ ":" ++ jsonDumpsPairs (params.insertionSort pairLe)

/-- `APICallCacher._generate_cache_key`: the MD5 hex digest of the key
string.  The digest is passed in as an explicit function `hash`; every
property proved about key generation holds for any such function, in
particular for MD5. -/
def generateCacheKey (hash : String → String) (url : String)
    (params : List (String × String)) (method : String) : String :=
  hash (cacheKeyString url params method)


/-! ## Helper lemmas: risk engine -/

/-- The contribution of one finding to `weighted_sum`, as a function of its
effective severity alone. -/
def sevTerm (s : String) : ℚ :=
  scoreOf s * (if s = "critical" then 3/2 else 1)

theorem foldl_weighted (fs : List Finding) :
    ∀ a : ℚ, fs.foldl (fun acc f => acc + scoreOf (sevOf f) * findingWeight f) a
      = a + ((fs.map sevOf).map sevTerm).sum := by
  induction fs with
  | nil => intro a; simp
  | cons f fs ih =>
      intro a
      simp only [List.foldl_cons, List.map_cons, List.sum_cons, ih]
      unfold sevTerm findingWeight
      ring

theorem weightedSum_eq (fs : List Finding) :
    weightedSum fs = ((fs.map sevOf).map sevTerm).sum := by
  unfold weightedSum
  rw [foldl_weighted]
  simp

theorem countP_sev (fs : List Finding) (c : String) :
    fs.countP (fun f => sevOf f == c) = (fs.map sevOf).countP (fun s => s == c) := by
  rw [List.countP_map]
  rfl

theorem scoreOf_nonneg (s : String) : 0 ≤ scoreOf s := by
  unfold scoreOf severityScores
  simp only [List.lookup]
  repeat' split
  all_goals norm_num

theorem scoreOf_le_seven (s : String) (h : s ≠ "critical") : scoreOf s ≤ 7 := by
  unfold scoreOf severityScores
  simp only [List.lookup]
  repeat' split
  case _ heq =>
    exact absurd (by simpa [beq_iff_eq] using heq) h
  all_goals norm_num

theorem sevTerm_nonneg (s : String) : 0 ≤ sevTerm s := by
  unfold sevTerm
  have := scoreOf_nonneg s
  split <;> nlinarith

theorem sevTerm_le_seven (s : String) (h : s ≠ "critical") : sevTerm s ≤ 7 := by
  unfold sevTerm
  rw [if_neg h, mul_one]
  exact scoreOf_le_seven s h

theorem weightedSum_nonneg (fs : List Finding) : 0 ≤ weightedSum fs := by
  rw [weightedSum_eq]
  apply List.sum_nonneg
  intro x hx
  obtain ⟨s, _, rfl⟩ := List.mem_map.mp hx
  exact sevTerm_nonneg s

/-! ## C1 -/

/-- C1: with no findings at all, `calculate_risk` returns overall score 0 and
risk level "Minimal"; with exactly one finding of severity `"critical"`, it
returns overall score exactly 10 (9·1.5/1.25 = 10.8 capped at 10) and risk
level "Critical". -/
theorem calculateRisk_empty_and_single_critical (sr : ScanResults) :
    (extractFindings sr = [] →
      (calculateRisk sr).overall_score = 0 ∧ (calculateRisk sr).risk_level = "Minimal") ∧
    (∀ f : Finding, extractFindings sr = [f] → f.severity = some "critical" →
      (calculateRisk sr).overall_score = 10 ∧ (calculateRisk sr).risk_level = "Critical") := by
  constructor
  · intro h
    simp only [calculateRisk, h]
    constructor
    · simp [overallScore]
    · norm_num [overallScore, riskLevel]
  · intro f h hsev
    have hs : sevOf f = "critical" := by
      simp only [sevOf, hsev, Option.getD_some]
      decide
    have hscore : overallScore [f] = 10 := by
      have hw : weightedSum [f] = 27/2 := by
        rw [weightedSum_eq]
        simp only [List.map_cons, List.map_nil, List.sum_cons, List.sum_nil, hs]
        have : sevTerm "critical" = 27/2 := by
          unfold sevTerm
          rw [if_pos rfl]
          have : scoreOf "critical" = 9 := by decide
          rw [this]; norm_num
        rw [this]; norm_num
      unfold overallScore
      rw [if_neg (by simp)]
      rw [hw]
      norm_num
    simp only [calculateRisk, h]
    refine ⟨hscore, ?_⟩
    rw [hscore]
    norm_num [riskLevel]

/-- Closed instantiation of `calculateRisk_empty_and_single_critical`. -/
theorem calculateRisk_empty_and_single_critical_witness :
    ((calculateRisk []).overall_score = 0 ∧ (calculateRisk []).risk_level = "Minimal") ∧
    ((calculateRisk [("m", some [⟨"t", "d", some "critical"⟩])]).overall_score = 10 ∧
      (calculateRisk [("m", some [⟨"t", "d", some "critical"⟩])]).risk_level = "Critical") :=
  ⟨(calculateRisk_empty_and_single_critical []).1 rfl,
   (calculateRisk_empty_and_single_critical [("m", some [⟨"t", "d", some "critical"⟩])]).2
     ⟨"t", "d", some "critical"⟩ (by decide) rfl⟩

/-! ## C2 -/

/-- A scan-results value with exactly one critical, two high and one medium
finding across its modules. -/
def c2Input : ScanResults :=
  [("m1", some [⟨"c", "", some "critical"⟩]),
   ("m2", some [⟨"h1", "", some "high"⟩, ⟨"h2", "", some "high"⟩]),
   ("m3", some [⟨"m", "", some "medium"⟩])]

/-- C2 counterexample: on exactly `{1 critical, 2 high, 1 medium}` the
overall score is `(9·1.5 + 7 + 7 + 5) / (4·1.25) = 32.5/5 = 6.5`, not the
claimed 6.7. -/
theorem calculateRisk_c2Input_not_67 :
    (calculateRisk c2Input).overall_score = 13/2 ∧ ((13:ℚ)/2 ≠ 67/10) := by
  constructor
  · have h1 : sevOf ⟨"c", "", some "critical"⟩ = "critical" := by decide
    have h2 : sevOf ⟨"h1", "", some "high"⟩ = "high" := by decide
    have h3 : sevOf ⟨"h2", "", some "high"⟩ = "high" := by decide
    have h4 : sevOf ⟨"m", "", some "medium"⟩ = "medium" := by decide
    have hext : extractFindings c2Input =
        [⟨"c", "", some "critical"⟩, ⟨"h1", "", some "high"⟩,
         ⟨"h2", "", some "high"⟩, ⟨"m", "", some "medium"⟩] := by decide
    have hsc : scoreOf "critical" = 9 := by decide
    have hsh : scoreOf "high" = 7 := by decide
    have hsm : scoreOf "medium" = 5 := by decide
    have hw : weightedSum (extractFindings c2Input) = 65/2 := by
      rw [weightedSum_eq, hext]
      simp only [List.map_cons, List.map_nil, List.sum_cons, List.sum_nil,
        h1, h2, h3, h4]
      simp only [sevTerm, hsc, hsh, hsm, String.reduceEq, reduceIte]
      norm_num
    show overallScore (extractFindings c2Input) = 13/2
    unfold overallScore
    rw [hw, hext]
    norm_num
  · norm_num

/-- C2 (amended): whenever the extracted findings consist of exactly one
critical, two high and one medium finding (in any arrangement over the
modules), the severity breakdown is `{critical:1, high:2, medium:1, low:0,
info:0}` and the overall score is `(9·1.5 + 7 + 7 + 5)/(4·1.25) = 6.5`. -/
theorem calculateRisk_one_crit_two_high_one_med (sr : ScanResults)
    (h : ((extractFindings sr).map sevOf).Perm ["critical", "high", "high", "medium"]) :
    (calculateRisk sr).severity_breakdown = ⟨1, 2, 1, 0, 0⟩ ∧
    (calculateRisk sr).overall_score = 13/2 := by
  have hlen : (extractFindings sr).length = 4 := by
    have := h.length_eq
    simpa using this
  constructor
  · show severityBreakdown (extractFindings sr) = _
    unfold severityBreakdown
    have hc := fun c => (countP_sev (extractFindings sr) c).trans
      (h.countP_eq (fun s => s == c))
    simp only [hc]
    decide
  · show overallScore (extractFindings sr) = 13/2
    have hw : weightedSum (extractFindings sr) = 65/2 := by
      rw [weightedSum_eq]
      rw [(h.map sevTerm).sum_eq]
      have hsc : scoreOf "critical" = 9 := by decide
      have hsh : scoreOf "high" = 7 := by decide
      have hsm : scoreOf "medium" = 5 := by decide
      simp only [List.map_cons, List.map_nil, List.sum_cons, List.sum_nil]
      simp only [sevTerm, hsc, hsh, hsm, String.reduceEq, reduceIte]
      norm_num
    unfold overallScore
    rw [if_neg (by rw [List.isEmpty_iff_length_eq_zero, hlen]; norm_num), hw, hlen]
    norm_num

/-- Closed instantiation of `calculateRisk_one_crit_two_high_one_med`. -/
theorem calculateRisk_one_crit_two_high_one_med_witness :
    (calculateRisk c2Input).severity_breakdown = ⟨1, 2, 1, 0, 0⟩ ∧
    (calculateRisk c2Input).overall_score = 13/2 :=
  calculateRisk_one_crit_two_high_one_med c2Input (by decide)

/-! ## C9 -/

/-- C9: for every possible scan-results input, the overall score returned by
`calculate_risk` lies in `[0, 10]`. -/
theorem calculateRisk_score_in_range (sr : ScanResults) :
    0 ≤ (calculateRisk sr).overall_score ∧ (calculateRisk sr).overall_score ≤ 10 := by
  show 0 ≤ overallScore (extractFindings sr) ∧ overallScore (extractFindings sr) ≤ 10
  unfold overallScore
  split
  · norm_num
  · constructor
    · apply le_min _ (by norm_num)
      apply div_nonneg (weightedSum_nonneg _)
      positivity
    · exact min_le_right _ _

/-! ## C10 -/

/-- C10: if no extracted finding has effective severity `"critical"`, the
overall score is at most `7/1.25 = 5.6`, so the risk level is never
`"High"` and never `"Critical"`. -/
theorem calculateRisk_no_critical_at_most_medium (sr : ScanResults)
    (h : ∀ f ∈ extractFindings sr, sevOf f ≠ "critical") :
    (calculateRisk sr).overall_score ≤ 28/5 ∧
    (calculateRisk sr).risk_level ≠ "High" ∧
    (calculateRisk sr).risk_level ≠ "Critical" := by
  have hscore : (calculateRisk sr).overall_score ≤ 28/5 := by
    show overallScore (extractFindings sr) ≤ 28/5
    unfold overallScore
    split
    · norm_num
    case _ hne =>
      refine le_trans (min_le_left _ _) ?_
      set fs := extractFindings sr with hfs
      have hlen : 0 < fs.length := by
        rcases fs with _ | ⟨f, fs'⟩
        · simp at hne
        · simp
      have hws : weightedSum fs ≤ (fs.length : ℚ) * 7 := by
        rw [weightedSum_eq]
        have hb : ∀ x ∈ (fs.map sevOf).map sevTerm, x ≤ 7 := by
          intro x hx
          obtain ⟨s, hs, rfl⟩ := List.mem_map.mp hx
          obtain ⟨f, hf, rfl⟩ := List.mem_map.mp hs
          exact sevTerm_le_seven _ (h f (hfs ▸ hf))
        calc ((fs.map sevOf).map sevTerm).sum
            ≤ ((fs.map sevOf).map sevTerm).length • (7 : ℚ) :=
              List.sum_le_card_nsmul _ _ hb
          _ = (fs.length : ℚ) * 7 := by simp [nsmul_eq_mul]
      have hposden : (0 : ℚ) < (fs.length : ℚ) * (5/4) := by positivity
      rw [div_le_iff₀ hposden]
      calc weightedSum fs ≤ (fs.length : ℚ) * 7 := hws
        _ = 28/5 * ((fs.length : ℚ) * (5/4)) := by ring
  refine ⟨hscore, ?_, ?_⟩ <;>
  · show riskLevel (overallScore (extractFindings sr)) ≠ _
    have hs : overallScore (extractFindings sr) ≤ 28/5 := hscore
    unfold riskLevel
    split_ifs with h1 h2 h3 h4 <;> first
      | (exfalso; linarith)
      | decide

/-- Closed instantiation of `calculateRisk_no_critical_at_most_medium`. -/
theorem calculateRisk_no_critical_at_most_medium_witness :
    (calculateRisk [("m", some [⟨"h", "", some "high"⟩])]).overall_score ≤ 28/5 ∧
    (calculateRisk [("m", some [⟨"h", "", some "high"⟩])]).risk_level ≠ "High" ∧
    (calculateRisk [("m", some [⟨"h", "", some "high"⟩])]).risk_level ≠ "Critical" :=
  calculateRisk_no_critical_at_most_medium [("m", some [⟨"h", "", some "high"⟩])]
    (by decide)

/-! ## C7 -/

/-- A finding whose severity string is present but not one of the five known
buckets. -/
def c7Finding : Finding := ⟨"x", "y", some "severe"⟩

/-- C7 counterexample: a finding with the unknown severity `"severe"` gets
derived base score 0 (as claimed), but it is NOT counted under `"info"` in
the severity breakdown — no bucket counts it, so a scan consisting of just
this finding has `info = 0` where the claim demands `info = 1`. -/
theorem unknownSeverity_not_counted_as_info :
    sevOf c7Finding = "severe" ∧
    cvssScore c7Finding = 0 ∧
    (calculateRisk [("m", some [c7Finding])]).severity_breakdown.info = 0 ∧
    (calculateRisk [("m", some [c7Finding])]).severity_breakdown = ⟨0, 0, 0, 0, 0⟩ := by
  refine ⟨by decide, by decide, ?_, ?_⟩ <;> decide

/-- C7 (amended): a finding whose effective severity is not one of the five
known buckets is assigned derived base score 0, and contributes to no bucket
of the severity breakdown at all (in particular not to `"info"`; only a
missing severity key defaults to `"info"`). -/
theorem unknownSeverity_zero_score_uncounted (f : Finding)
    (h : sevOf f ∉ (["critical", "high", "medium", "low", "info"] : List String)) :
    cvssScore f = 0 ∧
    ∀ fs : List Finding, severityBreakdown (f :: fs) = severityBreakdown fs := by
  simp only [List.mem_cons, List.not_mem_nil, or_false, not_or] at h
  obtain ⟨h1, h2, h3, h4, h5⟩ := h
  constructor
  · unfold cvssScore scoreOf severityScores
    simp only [List.lookup]
    rw [show (sevOf f == "critical") = false from beq_eq_false_iff_ne.mpr h1,
        show (sevOf f == "high") = false from beq_eq_false_iff_ne.mpr h2,
        show (sevOf f == "medium") = false from beq_eq_false_iff_ne.mpr h3,
        show (sevOf f == "low") = false from beq_eq_false_iff_ne.mpr h4,
        show (sevOf f == "info") = false from beq_eq_false_iff_ne.mpr h5]
    rfl
  · intro fs
    unfold severityBreakdown
    simp only [List.countP_cons,
      show (sevOf f == "critical") = false from beq_eq_false_iff_ne.mpr h1,
      show (sevOf f == "high") = false from beq_eq_false_iff_ne.mpr h2,
      show (sevOf f == "medium") = false from beq_eq_false_iff_ne.mpr h3,
      show (sevOf f == "low") = false from beq_eq_false_iff_ne.mpr h4,
      show (sevOf f == "info") = false from beq_eq_false_iff_ne.mpr h5]
    simp

/-- Closed instantiation of `unknownSeverity_zero_score_uncounted`. -/
theorem unknownSeverity_zero_score_uncounted_witness :
    cvssScore ⟨"", "", some "wild"⟩ = 0 ∧
    severityBreakdown [⟨"", "", some "wild"⟩] = severityBreakdown [] :=
  ⟨(unknownSeverity_zero_score_uncounted ⟨"", "", some "wild"⟩ (by decide)).1,
   (unknownSeverity_zero_score_uncounted ⟨"", "", some "wild"⟩ (by decide)).2 []⟩

/-! ## C8 -/

theorem foldl_owaspStep (fs : List Finding) :
    ∀ (m : String → List Finding) (code : String),
      (fs.foldl owaspStep m) code = m code ++ fs.filter (fun f => assignOwasp f == code) := by
  induction fs with
  | nil => intro m code; simp
  | cons f fs ih =>
      intro m code
      rw [List.foldl_cons, ih]
      by_cases h : assignOwasp f = code
      · rw [List.filter_cons_of_pos (by simpa using h)]
        simp [owaspStep, h, beq_iff_eq]
      · rw [List.filter_cons_of_neg (by simpa using h)]
        simp [owaspStep, beq_iff_eq, h]

theorem owaspMapping_eq_filter (fs : List Finding) (code : String) :
    owaspMapping fs code = fs.filter (fun f => assignOwasp f == code) := by
  unfold owaspMapping
  rw [foldl_owaspStep]
  simp

theorem assignOwasp_mem_codes (f : Finding) : assignOwasp f ∈ owaspCodes := by
  unfold assignOwasp
  cases hfind : categoryKeywords.find? (catMatches f) with
  | none => decide
  | some ck =>
      have hmem := List.mem_of_find?_eq_some hfind
      have hall : ∀ ck ∈ categoryKeywords, ck.1 ∈ owaspCodes := by decide
      exact hall ck hmem

theorem find?_of_first {β : Type} (p : β → Bool) :
    ∀ (l : List β) (n : ℕ) (h : n < l.length),
      p (l.get ⟨n, h⟩) = true →
      (∀ m (hm : m < l.length), m < n → p (l.get ⟨m, hm⟩) = false) →
      l.find? p = some (l.get ⟨n, h⟩) := by
  intro l
  induction l with
  | nil => intro n h; simp at h
  | cons a t ih =>
      intro n h hp hprev
      cases n with
      | zero =>
          simp only [List.get] at hp ⊢
          rw [List.find?_cons_of_pos _ hp]
      | succ n' =>
          have ha : p a = false := hprev 0 (by simp) (by omega)
          rw [List.find?_cons_of_neg _ (by simp [ha])]
          have h' : n' < t.length := by simpa using h
          have := ih n' h' (by simpa using hp)
            (fun m hm hmn => by
              have := hprev (m + 1) (by simpa using hm) (by omega)
              simpa using this)
          simpa using this

/-- C8: category assignment is deterministic and single-valued: every
finding in the extracted list lands in the findings list of exactly one of
the ten taxonomy codes; that code is the first category of the fixed
priority order `categoryKeywords` whose keywords match the lower-cased
title-plus-description text, and a finding matching no category lands in
the catch-all `"A05"`. -/
theorem owasp_first_match_single_category (fs : List Finding) (f : Finding)
    (hf : f ∈ fs) :
    ∃ code, code ∈ owaspCodes ∧ f ∈ owaspMapping fs code ∧
      (∀ c, f ∈ owaspMapping fs c → c = code) ∧
      ((∀ ck ∈ categoryKeywords, catMatches f ck = false) → code = "A05") ∧
      (∀ n (hn : n < categoryKeywords.length),
        catMatches f (categoryKeywords.get ⟨n, hn⟩) = true →
        (∀ m (hm : m < categoryKeywords.length), m < n →
          catMatches f (categoryKeywords.get ⟨m, hm⟩) = false) →
        code = (categoryKeywords.get ⟨n, hn⟩).1) := by
  refine ⟨assignOwasp f, assignOwasp_mem_codes f, ?_, ?_, ?_, ?_⟩
  · rw [owaspMapping_eq_filter]
    exact List.mem_filter.mpr ⟨hf, by simp⟩
  · intro c hc
    rw [owaspMapping_eq_filter] at hc
    have := (List.mem_filter.mp hc).2
    exact (beq_iff_eq.mp this).symm
  · intro hnone
    unfold assignOwasp
    rw [List.find?_eq_none.mpr (fun ck hck => by simp [hnone ck hck])]
  · intro n hn hmatch hprev
    unfold assignOwasp
    rw [find?_of_first (catMatches f) categoryKeywords n hn hmatch hprev]

/-- Closed instantiation of `owasp_first_match_single_category` at a finding
whose text matches both A03 keywords (`injection`, `sql`) and no earlier
category. -/
theorem owasp_first_match_single_category_witness :
    ∃ code, code ∈ owaspCodes ∧
      (⟨"SQL injection found", "", some "high"⟩ : Finding) ∈
        owaspMapping [⟨"SQL injection found", "", some "high"⟩] code ∧
      (∀ c, (⟨"SQL injection found", "", some "high"⟩ : Finding) ∈
        owaspMapping [⟨"SQL injection found", "", some "high"⟩] c → c = code) ∧
      ((∀ ck ∈ categoryKeywords,
          catMatches ⟨"SQL injection found", "", some "high"⟩ ck = false) → code = "A05") ∧
      (∀ n (hn : n < categoryKeywords.length),
        catMatches ⟨"SQL injection found", "", some "high"⟩ (categoryKeywords.get ⟨n, hn⟩) = true →
        (∀ m (hm : m < categoryKeywords.length), m < n →
          catMatches ⟨"SQL injection found", "", some "high"⟩ (categoryKeywords.get ⟨m, hm⟩) = false) →
        code = (categoryKeywords.get ⟨n, hn⟩).1) :=
  owasp_first_match_single_category [⟨"SQL injection found", "", some "high"⟩]
    ⟨"SQL injection found", "", some "high"⟩ (by decide)

/-! ## Helper lemmas: association lists -/

theorem find?_map_overwrite {β : Type} (k : String) (v : β) :
    ∀ l : List (String × β), l.any (fun p => p.1 == k) = true →
      (l.map (fun p => if p.1 == k then (k, v) else p)).find? (fun p => p.1 == k)
        = some (k, v) := by
  intro l
  induction l with
  | nil => simp
  | cons p t ih =>
      intro hany
      rw [List.map_cons]
      by_cases hp : p.1 = k
      · have hmap : (if (p.1 == k) = true then (k, v) else p) = (k, v) := by simp [hp]
        rw [hmap, List.find?_cons_of_pos _ (by simp)]
      · have hmap : (if (p.1 == k) = true then (k, v) else p) = p := by simp [hp]
        rw [hmap, List.find?_cons_of_neg _ (by simp [hp])]
        apply ih
        rcases List.any_eq_true.mp hany with ⟨q, hq, hqk⟩
        rcases List.mem_cons.mp hq with rfl | hq'
        · exact absurd (by simpa using hqk) hp
        · exact List.any_eq_true.mpr ⟨q, hq', hqk⟩

theorem alGet_alSet_self {β : Type} (l : List (String × β)) (k : String) (v : β) :
    alGet (alSet l k v) k = some v := by
  unfold alGet alSet
  by_cases hany : l.any (fun p => p.1 == k) = true
  · rw [if_pos hany, find?_map_overwrite k v l hany]
    rfl
  · rw [if_neg hany]
    have hnone : l.find? (fun p => p.1 == k) = none := by
      rw [List.find?_eq_none]
      intro p hp hk
      exact hany (List.any_eq_true.mpr ⟨p, hp, hk⟩)
    rw [List.find?_append, hnone]
    simp

theorem filter_ne_map_overwrite {β : Type} (k : String) (v : β) :
    ∀ l : List (String × β),
      (l.map (fun p => if p.1 == k then (k, v) else p)).filter (fun p => !(p.1 == k))
        = l.filter (fun p => !(p.1 == k)) := by
  intro l
  induction l with
  | nil => rfl
  | cons p t ih =>
      rw [List.map_cons]
      by_cases hp : p.1 = k
      · have hmap : (if (p.1 == k) = true then (k, v) else p) = (k, v) := by simp [hp]
        rw [hmap, List.filter_cons_of_neg (by simp),
            List.filter_cons_of_neg (by simp [hp]), ih]
      · have hmap : (if (p.1 == k) = true then (k, v) else p) = p := by simp [hp]
        rw [hmap, List.filter_cons_of_pos (by simp [hp]),
            List.filter_cons_of_pos (by simp [hp]), ih]

theorem alErase_alSet_self {β : Type} (l : List (String × β)) (k : String) (v : β) :
    alErase (alSet l k v) k = alErase l k := by
  unfold alErase alSet
  by_cases hany : l.any (fun p => p.1 == k) = true
  · rw [if_pos hany, filter_ne_map_overwrite]
  · rw [if_neg hany, List.filter_append]
    simp

theorem alGet_alErase_self {β : Type} (l : List (String × β)) (k : String) :
    alGet (alErase l k) k = none := by
  unfold alGet alErase
  have hnone : (l.filter (fun p => !(p.1 == k))).find? (fun p => p.1 == k) = none := by
    rw [List.find?_eq_none]
    intro p hp
    have h2 := (List.mem_filter.mp hp).2
    simp at h2
    simp [h2]
  rw [hnone]
  rfl

/-! ## C5 -/

/-- C5: after `set(k, v, ttl)` at time `t`, a `get(k)` strictly before
`t + ttl` returns `v`; a `get(k)` at or after `t + ttl` returns `None`, and
afterwards the entry is gone from both tiers (the resulting state is the
original one with `k` erased everywhere), so `get_stats` no longer counts
it in any tier. -/
theorem cache_set_get_ttl {α : Type} (st : CacheState α) (k : String) (v : α)
    (ttl t t1 t2 : ℚ) (_httl : 0 < ttl) :
    ((t1 < t + ttl) →
      (cacheGet ((cacheSet st k v ttl t).1) k t1).1 = some v) ∧
    ((t + ttl ≤ t2) →
      (cacheGet ((cacheSet st k v ttl t).1) k t2).1 = none ∧
      (cacheGet ((cacheSet st k v ttl t).1) k t2).2
        = ⟨alErase st.mem k, alErase st.db k⟩ ∧
      getStats (cacheGet ((cacheSet st k v ttl t).1) k t2).2 t2
        = getStats ⟨alErase st.mem k, alErase st.db k⟩ t2) := by
  have hmem : alGet (alSet st.mem k ⟨v, t + ttl, some t, 0⟩) k
      = some ⟨v, t + ttl, some t, 0⟩ := alGet_alSet_self _ _ _
  have hdb : alGet (alSet st.db k ⟨v, ttl, t, t + ttl, 0⟩) k
      = some ⟨v, ttl, t, t + ttl, 0⟩ := alGet_alSet_self _ _ _
  constructor
  · intro h1
    show (cacheGet ⟨alSet st.mem k ⟨v, t + ttl, some t, 0⟩,
      alSet st.db k ⟨v, ttl, t, t + ttl, 0⟩⟩ k t1).1 = some v
    unfold cacheGet
    rw [hmem]
    simp only [if_pos h1]
  · intro h2
    have hstate : (cacheGet ((cacheSet st k v ttl t).1) k t2)
        = (none, ⟨alErase st.mem k, alErase st.db k⟩) := by
      show cacheGet ⟨alSet st.mem k ⟨v, t + ttl, some t, 0⟩,
        alSet st.db k ⟨v, ttl, t, t + ttl, 0⟩⟩ k t2 = _
      unfold cacheGet
      rw [hmem]
      simp only [if_neg (not_lt.mpr h2)]
      unfold dbGet
      simp only [hdb, if_neg (not_lt.mpr h2)]
      rw [alErase_alSet_self, alErase_alSet_self]
    rw [hstate]
    exact ⟨rfl, rfl, rfl⟩

/-- Closed instantiation of `cache_set_get_ttl` with `ttl = 10`, set at time
0, read back at times 5 and 10. -/
theorem cache_set_get_ttl_witness :
    ((cacheGet ((cacheSet (⟨[], []⟩ : CacheState String) "k" "v" 10 0).1) "k" 5).1
        = some "v") ∧
    ((cacheGet ((cacheSet (⟨[], []⟩ : CacheState String) "k" "v" 10 0).1) "k" 10).1
        = none ∧
      (cacheGet ((cacheSet (⟨[], []⟩ : CacheState String) "k" "v" 10 0).1) "k" 10).2
        = ⟨alErase ([] : List (String × MemEntry String)) "k",
           alErase ([] : List (String × DbEntry String)) "k"⟩ ∧
      getStats (cacheGet ((cacheSet (⟨[], []⟩ : CacheState String) "k" "v" 10 0).1) "k" 10).2 10
        = getStats ⟨alErase ([] : List (String × MemEntry String)) "k",
             alErase ([] : List (String × DbEntry String)) "k"⟩ 10) :=
  ⟨(cache_set_get_ttl ⟨[], []⟩ "k" "v" 10 0 5 10 (by norm_num)).1 (by norm_num),
   (cache_set_get_ttl ⟨[], []⟩ "k" "v" 10 0 5 10 (by norm_num)).2 (by norm_num)⟩

/-! ## Helper lemmas: code-point lexicographic order -/

theorem charListLt_irrefl : ∀ as : List Char, charListLt as as = false := by
  intro as
  induction as with
  | nil => rfl
  | cons a t ih =>
      unfold charListLt
      rw [if_pos rfl]
      exact ih

theorem charListLt_trans :
    ∀ as bs cs : List Char, charListLt as bs = true → charListLt bs cs = true →
      charListLt as cs = true := by
  intro as
  induction as with
  | nil =>
      intro bs cs h1 h2
      cases bs with
      | nil => simp [charListLt] at h1
      | cons b bs' =>
          cases cs with
          | nil => simp [charListLt] at h2
          | cons c cs' => rfl
  | cons a as' ih =>
      intro bs cs h1 h2
      cases bs with
      | nil => simp [charListLt] at h1
      | cons b bs' =>
          cases cs with
          | nil => simp [charListLt] at h2
          | cons c cs' =>
              unfold charListLt at h1 h2 ⊢
              by_cases hab : a = b
              · subst hab
                rw [if_pos rfl] at h1
                by_cases hbc : a = c
                · subst hbc
                  rw [if_pos rfl] at h2 ⊢
                  exact ih bs' cs' h1 h2
                · rw [if_neg hbc] at h2 ⊢
                  exact h2
              · rw [if_neg hab] at h1
                have hab' : a < b := of_decide_eq_true h1
                by_cases hbc : b = c
                · subst hbc
                  rw [if_neg hab]
                  exact h1
                · rw [if_neg hbc] at h2
                  have hbc' : b < c := of_decide_eq_true h2
                  have hac : a < c := lt_trans hab' hbc'
                  rw [if_neg (ne_of_lt hac)]
                  exact decide_eq_true hac

theorem charListLt_or_of_ne :
    ∀ as bs : List Char, as ≠ bs →
      charListLt as bs = true ∨ charListLt bs as = true := by
  intro as
  induction as with
  | nil =>
      intro bs hne
      cases bs with
      | nil => exact absurd rfl hne
      | cons b bs' => left; rfl
  | cons a as' ih =>
      intro bs hne
      cases bs with
      | nil => right; rfl
      | cons b bs' =>
          unfold charListLt
          by_cases hab : a = b
          · subst hab
            rw [if_pos rfl, if_pos rfl]
            exact ih bs' (fun h => hne (by rw [h]))
          · rcases lt_trichotomy a b with h | h | h
            · left; rw [if_neg hab]; exact decide_eq_true h
            · exact absurd h hab
            · right; rw [if_neg (ne_of_lt h)]; exact decide_eq_true h

theorem charListLe_refl : ∀ as : List Char, charListLe as as = true := by
  intro as
  induction as with
  | nil => rfl
  | cons a t ih =>
      unfold charListLe
      rw [if_pos rfl]
      exact ih

theorem charListLe_or :
    ∀ as bs : List Char, charListLe as bs = true ∨ charListLe bs as = true := by
  intro as
  induction as with
  | nil => intro bs; left; rfl
  | cons a as' ih =>
      intro bs
      cases bs with
      | nil => right; rfl
      | cons b bs' =>
          unfold charListLe
          by_cases hab : a = b
          · subst hab
            rw [if_pos rfl, if_pos rfl]
            exact ih bs'
          · rcases lt_trichotomy a b with h | h | h
            · left; rw [if_neg hab]; exact decide_eq_true h
            · exact absurd h hab
            · right; rw [if_neg (ne_of_lt h)]; exact decide_eq_true h

theorem charListLe_trans :
    ∀ as bs cs : List Char, charListLe as bs = true → charListLe bs cs = true →
      charListLe as cs = true := by
  intro as
  induction as with
  | nil => intro bs cs _ _; rfl
  | cons a as' ih =>
      intro bs cs h1 h2
      cases bs with
      | nil => simp [charListLe] at h1
      | cons b bs' =>
          cases cs with
          | nil => simp [charListLe] at h2
          | cons c cs' =>
              unfold charListLe at h1 h2 ⊢
              by_cases hab : a = b
              · subst hab
                rw [if_pos rfl] at h1
                by_cases hbc : a = c
                · subst hbc
                  rw [if_pos rfl] at h2 ⊢
                  exact ih bs' cs' h1 h2
                · rw [if_neg hbc] at h2 ⊢
                  exact h2
              · rw [if_neg hab] at h1
                have hab' : a < b := of_decide_eq_true h1
                by_cases hbc : b = c
                · subst hbc
                  rw [if_neg hab]
                  exact h1
                · rw [if_neg hbc] at h2
                  have hbc' : b < c := of_decide_eq_true h2
                  have hac : a < c := lt_trans hab' hbc'
                  rw [if_neg (ne_of_lt hac)]
                  exact decide_eq_true hac

theorem charListLe_antisymm :
    ∀ as bs : List Char, charListLe as bs = true → charListLe bs as = true →
      as = bs := by
  intro as
  induction as with
  | nil =>
      intro bs h1 h2
      cases bs with
      | nil => rfl
      | cons b bs' => simp [charListLe] at h2
  | cons a as' ih =>
      intro bs h1 h2
      cases bs with
      | nil => simp [charListLe] at h1
      | cons b bs' =>
          unfold charListLe at h1 h2
          by_cases hab : a = b
          · subst hab
            rw [if_pos rfl] at h1 h2
            rw [ih bs' h1 h2]
          · rw [if_neg hab] at h1
            rw [if_neg (fun h => hab h.symm)] at h2
            have h1' : a < b := of_decide_eq_true h1
            have h2' : b < a := of_decide_eq_true h2
            exact absurd h2' (not_lt_of_gt h1')

theorem stringData_inj {s t : String} (h : s.data = t.data) : s = t := by
  cases s
  cases t
  exact congrArg String.mk (by simpa using h)

instance : IsTrans (String × String) pairLe where
  trans := by
    intro a b c h1 h2
    unfold pairLe at h1 h2 ⊢
    by_cases hab : a.1 = b.1
    · rw [if_pos hab] at h1
      by_cases hbc : b.1 = c.1
      · rw [if_pos hbc] at h2
        rw [if_pos (hab.trans hbc)]
        exact charListLe_trans _ _ _ h1 h2
      · rw [if_neg hbc] at h2
        rw [if_neg (fun h => hbc (hab ▸ h)), hab]
        exact h2
    · rw [if_neg hab] at h1
      by_cases hbc : b.1 = c.1
      · rw [if_neg (fun h => hab (h.trans hbc.symm)), ← hbc]
        exact h1
      · rw [if_neg hbc] at h2
        have hlt := charListLt_trans _ _ _ h1 h2
        rw [if_neg (fun h : a.1 = c.1 => by
          rw [h, charListLt_irrefl] at hlt
          exact Bool.false_ne_true hlt)]
        exact hlt

instance : IsAntisymm (String × String) pairLe where
  antisymm := by
    intro a b h1 h2
    unfold pairLe at h1 h2
    by_cases hab : a.1 = b.1
    · rw [if_pos hab] at h1
      rw [if_pos hab.symm] at h2
      have := charListLe_antisymm _ _ h1 h2
      exact Prod.ext hab (stringData_inj this)
    · rw [if_neg hab] at h1
      rw [if_neg (fun h => hab h.symm)] at h2
      have := charListLt_trans _ _ _ h1 h2
      rw [charListLt_irrefl] at this
      exact absurd this (by simp)

instance : IsTotal (String × String) pairLe where
  total := by
    intro a b
    unfold pairLe
    by_cases hab : a.1 = b.1
    · rw [if_pos hab, if_pos hab.symm]
      exact charListLe_or _ _
    · rw [if_neg hab, if_neg (fun h => hab h.symm)]
      apply charListLt_or_of_ne
      intro h
      exact hab (stringData_inj h)

/-- Python's `sorted` output is determined by the multiset of items: two
permutations of each other sort to the same list under the (total,
transitive, antisymmetric) tuple comparison. -/
theorem insertionSort_pairLe_eq_of_perm {l1 l2 : List (String × String)}
    (h : l1.Perm l2) :
    l1.insertionSort pairLe = l2.insertionSort pairLe :=
  List.eq_of_perm_of_sorted
    ((List.perm_insertionSort pairLe l1).trans (h.trans (List.perm_insertionSort pairLe l2).symm))
    (List.sorted_insertionSort pairLe l1)
    (List.sorted_insertionSort pairLe l2)

/-! ## C6 -/

/-- C6: cache key generation is parameter-order independent — for any two
parameter dictionaries that are equal as key-value mappings (i.e. their item
lists are permutations of each other), `_generate_cache_key` produces
identical key strings, for the same URL and HTTP method and any digest
function (in particular MD5). -/
theorem generateCacheKey_order_independent (hash : String → String)
    (url method : String) (p1 p2 : List (String × String)) (hperm : p1.Perm p2) :
    generateCacheKey hash url p1 method = generateCacheKey hash url p2 method := by
  unfold generateCacheKey cacheKeyString
  rw [insertionSort_pairLe_eq_of_perm hperm]
  have hemp : p1.isEmpty = p2.isEmpty := by
    rcases p1 with _ | ⟨x, t1⟩ <;> rcases p2 with _ | ⟨y, t2⟩
    · rfl
    · simpa using hperm.length_eq
    · simpa using hperm.length_eq
    · rfl
  rw [hemp]

/-- Closed instantiation of `generateCacheKey_order_independent`:
`{a:1, b:2}` and `{b:2, a:1}` yield the same key. -/
theorem generateCacheKey_order_independent_witness :
    generateCacheKey id "https://api.example.com" [("a", "1"), ("b", "2")] "GET"
      = generateCacheKey id "https://api.example.com" [("b", "2"), ("a", "1")] "GET" :=
  generateCacheKey_order_independent id "https://api.example.com" "GET"
    [("a", "1"), ("b", "2")] [("b", "2"), ("a", "1")] (by decide)

/-! ## Helper lemmas: orchestrator results dict -/

theorem find?_map_overwrite_other {β : Type} (k k' : String) (v : β) (hne : k' ≠ k) :
    ∀ l : List (String × β),
      (l.map (fun p => if p.1 == k' then (k', v) else p)).find? (fun p => p.1 == k)
        = l.find? (fun p => p.1 == k) := by
  intro l
  induction l with
  | nil => rfl
  | cons p t ih =>
      rw [List.map_cons]
      by_cases hp : p.1 = k'
      · have hmap : (if (p.1 == k') = true then (k', v) else p) = (k', v) := by simp [hp]
        rw [hmap, List.find?_cons_of_neg _ (by simp [hne]),
            List.find?_cons_of_neg _ (by simp [hp, hne]), ih]
      · by_cases hpk : p.1 = k
        · have hmap : (if (p.1 == k') = true then (k', v) else p) = p := by simp [hp]
          rw [hmap, List.find?_cons_of_pos _ (by simp [hpk]),
              List.find?_cons_of_pos _ (by simp [hpk])]
        · have hmap : (if (p.1 == k') = true then (k', v) else p) = p := by simp [hp]
          rw [hmap, List.find?_cons_of_neg _ (by simp [hpk]),
              List.find?_cons_of_neg _ (by simp [hpk]), ih]

theorem alGet_alSet_other {β : Type} (l : List (String × β)) (k' : String) (v : β)
    (k : String) (hne : k' ≠ k) :
    alGet (alSet l k' v) k = alGet l k := by
  unfold alGet alSet
  by_cases hany : l.any (fun p => p.1 == k') = true
  · rw [if_pos hany, find?_map_overwrite_other k k' v hne]
  · rw [if_neg hany, List.find?_append]
    have hlast : ([(k', v)].find? (fun p => p.1 == k)) = none := by simp [hne]
    rw [hlast]
    cases l.find? (fun p => p.1 == k) <;> rfl

theorem alGet_foldl_write {β : Type} (g : String → β) :
    ∀ (ks : List String) (res : List (String × β)) (k : String),
      alGet (ks.foldl (fun r k' => alSet r k' (g k')) res) k
        = if k ∈ ks then some (g k) else alGet res k := by
  intro ks
  induction ks with
  | nil => intro res k; simp
  | cons k0 ks' ih =>
      intro res k
      rw [List.foldl_cons, ih]
      by_cases hk : k ∈ ks'
      · rw [if_pos hk, if_pos (List.mem_cons.mpr (Or.inr hk))]
      · rw [if_neg hk]
        by_cases hk0 : k = k0
        · subst hk0
          rw [if_pos (List.mem_cons.mpr (Or.inl rfl)), alGet_alSet_self]
        · rw [if_neg (by simp [hk0, hk]),
              alGet_alSet_other res k0 (g k0) k (fun h => hk0 h.symm)]

theorem keysOf_alSet {β : Type} (l : List (String × β)) (k : String) (v : β) :
    (alSet l k v).map Prod.fst
      = if l.any (fun p => p.1 == k) then l.map Prod.fst
        else l.map Prod.fst ++ [k] := by
  unfold alSet
  by_cases hany : l.any (fun p => p.1 == k) = true
  · rw [if_pos hany, if_pos hany, List.map_map]
    apply List.map_congr_left
    intro p _
    by_cases hp : p.1 = k
    · simp [hp]
    · simp [hp]
  · rw [if_neg hany, if_neg hany]
    simp

theorem any_key_iff {β : Type} (l : List (String × β)) (k : String) :
    l.any (fun p => p.1 == k) = true ↔ k ∈ l.map Prod.fst := by
  simp only [List.any_eq_true, List.mem_map, beq_iff_eq]

theorem keys_foldl_write {β : Type} (g : String → β) :
    ∀ (ks : List String) (res : List (String × β)),
      (∀ x, x ∈ (ks.foldl (fun r k' => alSet r k' (g k')) res).map Prod.fst
          ↔ x ∈ ks ∨ x ∈ res.map Prod.fst) ∧
      ((res.map Prod.fst).Nodup →
        ((ks.foldl (fun r k' => alSet r k' (g k')) res).map Prod.fst).Nodup) := by
  intro ks
  induction ks with
  | nil => intro res; exact ⟨fun x => by simp, fun h => h⟩
  | cons k0 ks' ih =>
      intro res
      rw [List.foldl_cons]
      have hkeys := keysOf_alSet res k0 (g k0)
      constructor
      · intro x
        rw [(ih (alSet res k0 (g k0))).1 x, hkeys]
        by_cases hany : res.any (fun p => p.1 == k0) = true
        · rw [if_pos hany]
          have hk0mem : k0 ∈ res.map Prod.fst := (any_key_iff res k0).mp hany
          constructor
          · rintro (h | h)
            · exact Or.inl (List.mem_cons.mpr (Or.inr h))
            · exact Or.inr h
          · rintro (h | h)
            · rcases List.mem_cons.mp h with rfl | h'
              · exact Or.inr hk0mem
              · exact Or.inl h'
            · exact Or.inr h
        · rw [if_neg hany]
          simp only [List.mem_append, List.mem_singleton, List.mem_cons]
          tauto
      · intro hnd
        apply (ih (alSet res k0 (g k0))).2
        rw [hkeys]
        by_cases hany : res.any (fun p => p.1 == k0) = true
        · rw [if_pos hany]; exact hnd
        · rw [if_neg hany]
          rw [List.nodup_append]
          refine ⟨hnd, List.nodup_singleton k0, ?_⟩
          intro a ha hb
          rw [List.mem_singleton] at hb
          subst hb
          exact hany ((any_key_iff res a).mpr ha)

theorem length_alSet {β : Type} (l : List (String × β)) (k : String) (v : β) :
    (alSet l k v).length
      = if l.any (fun p => p.1 == k) then l.length else l.length + 1 := by
  unfold alSet
  by_cases hany : l.any (fun p => p.1 == k) = true
  · rw [if_pos hany, if_pos hany, List.length_map]
  · rw [if_neg hany, if_neg hany, List.length_append]
    rfl

theorem mem_filterModules {selected : List String} {k : String} :
    k ∈ filterModules selected ↔ k ∈ selected ∧ k ∈ moduleKeys := by
  unfold filterModules
  rw [List.mem_filter]
  simp [List.elem_iff]

theorem length_orchestrate {β : Type} (g : String → β) (te : β)
    (filtered : List String) (hf : ∀ k ∈ filtered, k ∈ moduleKeys) (m : β) :
    (alSet (filtered.foldl (fun r k' => alSet r k' (g k'))
        (alSet ([] : List (String × β)) "tech_stack" te)) "metadata" m).length
      = 2 + (moduleKeys.filter (fun k => filtered.contains k)).length := by
  have hmem := (keys_foldl_write g filtered
    (alSet ([] : List (String × β)) "tech_stack" te)).1
  have hnodup := (keys_foldl_write g filtered
    (alSet ([] : List (String × β)) "tech_stack" te)).2 (by simp [alSet])
  have hkeys0 : (alSet ([] : List (String × β)) "tech_stack" te).map Prod.fst
      = ["tech_stack"] := rfl
  rw [hkeys0] at hmem
  have hmeta : ¬ ((filtered.foldl (fun r k' => alSet r k' (g k'))
      (alSet ([] : List (String × β)) "tech_stack" te)).any
        (fun p => p.1 == "metadata") = true) := by
    rw [any_key_iff, hmem]
    rintro (h | h)
    · exact absurd (hf _ h) (by decide)
    · simp at h
  rw [length_alSet, if_neg hmeta]
  have hlen1 : (filtered.foldl (fun r k' => alSet r k' (g k'))
      (alSet ([] : List (String × β)) "tech_stack" te)).length
      = 1 + (moduleKeys.filter (fun k => filtered.contains k)).length := by
    rw [← List.length_map _ Prod.fst, ← List.toFinset_card_of_nodup hnodup]
    have hset : ((filtered.foldl (fun r k' => alSet r k' (g k'))
        (alSet ([] : List (String × β)) "tech_stack" te)).map Prod.fst).toFinset
        = insert "tech_stack" (moduleKeys.filter (fun k => filtered.contains k)).toFinset := by
      ext x
      simp only [List.mem_toFinset, Finset.mem_insert]
      rw [hmem x]
      constructor
      · rintro (h | h)
        · right
          rw [List.mem_filter]
          exact ⟨hf x h, List.elem_iff.mpr h⟩
        · left
          simpa using h
      · rintro (rfl | h)
        · right; simp
        · left
          rw [List.mem_filter] at h
          exact List.elem_iff.mp h.2
    rw [hset, Finset.card_insert_of_not_mem, List.toFinset_card_of_nodup]
    · exact Nat.add_comm _ 1
    · exact List.Nodup.filter _ (by decide)
    · intro hmemf
      rw [List.mem_toFinset, List.mem_filter] at hmemf
      exact absurd hmemf.1 (by decide)
  omega

/-! ## C3 -/

/-- C3 (amended): for every target, module behaviour and selection, a module
whose execution raises is stored as `{status:"error", error: message,
findings: []}` under its id, every other filtered module's entry is its own
outcome (so one module's failure never prevents the others from being
recorded), and the returned results mapping has exactly
`|distinct filtered ids| + 2` entries — the per-module entries plus the
always-present `tech_stack` and `metadata` entries. -/
theorem runScan_error_isolation {α τ : Type} (selected : List String)
    (tech : ModuleOutcome τ) (beh : String → ModuleOutcome α)
    (mFind : α → List Finding) (tFind : τ → List Finding) :
    (∀ k ∈ filterModules selected,
      alGet (runScan selected tech beh mFind tFind) k
        = some (match beh k with
                | .ok r => OrchEntry.mod r
                | .raises msg => OrchEntry.modError "error" msg [])) ∧
    (runScan selected tech beh mFind tFind).length
      = 2 + (moduleKeys.filter (fun k => (filterModules selected).contains k)).length := by
  constructor
  · intro k hk
    have hkmod : k ∈ moduleKeys := (mem_filterModules.mp hk).2
    have hkne : "metadata" ≠ k := by
      intro h
      rw [← h] at hkmod
      exact absurd hkmod (by decide)
    show alGet (alSet ((filterModules selected).foldl
        (fun r k' => alSet r k'
          (match beh k' with
           | .ok r' => OrchEntry.mod r'
           | .raises msg => OrchEntry.modError "error" msg []))
        (alSet ([] : List (String × OrchEntry α τ)) "tech_stack"
          (match tech with
           | .ok t => OrchEntry.tech t
           | .raises msg => OrchEntry.techError msg []))) "metadata" _) k = _
    rw [alGet_alSet_other _ "metadata" _ k hkne]
    have h := alGet_foldl_write (fun k' =>
        (match beh k' with
         | .ok r' => OrchEntry.mod r'
         | .raises msg => OrchEntry.modError "error" msg []))
      (filterModules selected)
      (alSet ([] : List (String × OrchEntry α τ)) "tech_stack"
        (match tech with
         | .ok t => OrchEntry.tech t
         | .raises msg => OrchEntry.techError msg [])) k
    rw [if_pos hk] at h
    exact h
  · show (alSet ((filterModules selected).foldl
        (fun r k' => alSet r k'
          ((fun k'' => (match beh k'' with
             | .ok r' => OrchEntry.mod r'
             | .raises msg => OrchEntry.modError "error" msg [])) k'))
        (alSet ([] : List (String × OrchEntry α τ)) "tech_stack"
          (match tech with
           | .ok t => OrchEntry.tech t
           | .raises msg => OrchEntry.techError msg []))) "metadata" _).length = _
    exact length_orchestrate _ _ _ (fun k hk => (mem_filterModules.mp hk).2) _

/-- C3 counterexample: with modules `behavioral` (raising "boom") and
`threat_intel` (succeeding) selected, the returned mapping has 4 entries
(`tech_stack`, the two modules, `metadata`), not 2 = `len(filtered
selection)` as the claim states. -/
theorem runScan_results_larger_than_selection :
    (runScan ["behavioral", "threat_intel"] (ModuleOutcome.ok ())
        (fun k => if k == "behavioral" then ModuleOutcome.raises "boom"
                  else ModuleOutcome.ok ())
        (fun _ : Unit => []) (fun _ : Unit => [])).length = 4 ∧
    (filterModules ["behavioral", "threat_intel"]).length = 2 ∧
    (4 : ℕ) ≠ 2 := by
  refine ⟨by decide, by decide, by decide⟩

/-- Closed instantiation of `runScan_error_isolation`: the raising module's
entry is the error record, the succeeding one keeps its result, and the
mapping has `2 + 2` entries. -/
theorem runScan_error_isolation_witness :
    (alGet (runScan ["behavioral", "threat_intel"] (ModuleOutcome.ok ())
        (fun k => if k == "behavioral" then ModuleOutcome.raises "boom"
                  else ModuleOutcome.ok ())
        (fun _ : Unit => []) (fun _ : Unit => [])) "behavioral"
      = some (OrchEntry.modError "error" "boom" [])) ∧
    (alGet (runScan ["behavioral", "threat_intel"] (ModuleOutcome.ok ())
        (fun k => if k == "behavioral" then ModuleOutcome.raises "boom"
                  else ModuleOutcome.ok ())
        (fun _ : Unit => []) (fun _ : Unit => [])) "threat_intel"
      = some (OrchEntry.mod ())) ∧
    (runScan ["behavioral", "threat_intel"] (ModuleOutcome.ok ())
        (fun k => if k == "behavioral" then ModuleOutcome.raises "boom"
                  else ModuleOutcome.ok ())
        (fun _ : Unit => []) (fun _ : Unit => [])).length
      = 2 + (moduleKeys.filter
          (fun k => (filterModules ["behavioral", "threat_intel"]).contains k)).length := by
  refine ⟨?_, ?_, ?_⟩
  · exact (runScan_error_isolation ["behavioral", "threat_intel"] (ModuleOutcome.ok ())
      (fun k => if k == "behavioral" then ModuleOutcome.raises "boom"
                else ModuleOutcome.ok ())
      (fun _ : Unit => []) (fun _ : Unit => [])).1 "behavioral" (by decide)
  · exact (runScan_error_isolation ["behavioral", "threat_intel"] (ModuleOutcome.ok ())
      (fun k => if k == "behavioral" then ModuleOutcome.raises "boom"
                else ModuleOutcome.ok ())
      (fun _ : Unit => []) (fun _ : Unit => [])).1 "threat_intel" (by decide)
  · exact (runScan_error_isolation ["behavioral", "threat_intel"] (ModuleOutcome.ok ())
      (fun k => if k == "behavioral" then ModuleOutcome.raises "boom"
                else ModuleOutcome.ok ())
      (fun _ : Unit => []) (fun _ : Unit => [])).2

/-! ## Helper lemmas: progress rescaling -/

theorem subPct_mono {s e : ℚ} (hse : s ≤ e) {p q : ℚ} (hpq : p ≤ q) :
    subPct s e p ≤ subPct s e q := by
  unfold subPct
  apply Int.floor_le_floor
  have h1 : p / 100 * (e - s) ≤ q / 100 * (e - s) := by
    apply mul_le_mul_of_nonneg_right _ (by linarith)
    linarith
  linarith

theorem subPct_zero (s e : ℚ) : subPct s e 0 = ⌊s⌋ := by
  unfold subPct
  norm_num

theorem subPct_hundred (s e : ℚ) : subPct s e 100 = ⌊e⌋ := by
  unfold subPct
  rw [show s + 100 / 100 * (e - s) = e by ring]

theorem moduleBlock_map_fst (key : String) (s e : ℚ) (rep : List (ℚ × Option String)) :
    (moduleBlock key s e rep).map Prod.fst
      = subPct s e 0 :: ((rep.map Prod.fst).map (fun p => subPct s e p)
          ++ [subPct s e 100]) := by
  unfold moduleBlock
  simp [List.map_append, List.map_map, Function.comp]

theorem chain_wrap (f : ℚ → ℤ) (hmono : ∀ ⦃p q : ℚ⦄, p ≤ q → f p ≤ f q) (hi : ℚ) :
    ∀ (ps : List ℚ) (lo : ℚ), lo ≤ hi → (∀ p ∈ ps, p ≤ hi) →
      (lo :: ps).Chain' (· ≤ ·) →
      (f lo :: (ps.map f ++ [f hi])).Chain' (· ≤ ·) := by
  intro ps
  induction ps with
  | nil =>
      intro lo hlohi _ _
      exact List.chain'_cons.mpr ⟨hmono hlohi, List.chain'_singleton _⟩
  | cons p ps' ih =>
      intro lo hlohi hbound hch
      have hlop : lo ≤ p := (List.chain'_cons.mp hch).1
      have hch' : (p :: ps').Chain' (· ≤ ·) := (List.chain'_cons.mp hch).2
      have hrest := ih p (hbound p (List.mem_cons_self p ps'))
        (fun q hq => hbound q (List.mem_cons.mpr (Or.inr hq))) hch'
      rw [List.map_cons, List.cons_append]
      exact List.chain'_cons.mpr ⟨hmono hlop, hrest⟩

theorem moduleBlock_chain (key : String) (s e : ℚ) (rep : List (ℚ × Option String))
    (hse : s ≤ e)
    (hch : ((rep.map Prod.fst).Chain' (· ≤ ·)))
    (hbd : ∀ p ∈ rep.map Prod.fst, 0 ≤ p ∧ p ≤ 100) :
    ((moduleBlock key s e rep).map Prod.fst).Chain' (· ≤ ·) ∧
    ((moduleBlock key s e rep).map Prod.fst).head? = some ⌊s⌋ ∧
    ((moduleBlock key s e rep).map Prod.fst).getLast? = some ⌊e⌋ := by
  rw [moduleBlock_map_fst]
  refine ⟨?_, ?_, ?_⟩
  · apply chain_wrap (fun p => subPct s e p) (fun p q h => subPct_mono hse h) 100
      (rep.map Prod.fst) 0 (by norm_num) (fun p hp => (hbd p hp).2)
    apply List.chain'_cons'.mpr
    exact ⟨fun y hy => (hbd y (List.mem_of_mem_head? hy)).1, hch⟩
  · rw [subPct_zero]
    rfl
  · rw [← List.cons_append, List.getLast?_concat, subPct_hundred]

theorem blocksFrom_props (r : ℚ) (reports : String → List (ℚ × Option String))
    (hr : 0 ≤ r) :
    ∀ (ks : List String) (s : ℚ),
      (∀ k ∈ ks, ((reports k).map Prod.fst).Chain' (· ≤ ·) ∧
        ∀ p ∈ (reports k).map Prod.fst, 0 ≤ p ∧ p ≤ 100) →
      ks ≠ [] →
      ((blocksFrom r reports s ks).map Prod.fst).Chain' (· ≤ ·) ∧
      ((blocksFrom r reports s ks).map Prod.fst).head? = some ⌊s⌋ ∧
      ((blocksFrom r reports s ks).map Prod.fst).getLast?
        = some ⌊s + (ks.length : ℚ) * r⌋ := by
  intro ks
  induction ks with
  | nil => intro s _ hne; exact absurd rfl hne
  | cons k ks' ih =>
      intro s hrep _
      have hblock := moduleBlock_chain k s (s + r) (reports k) (by linarith)
        (hrep k (List.mem_cons_self k ks')).1 (hrep k (List.mem_cons_self k ks')).2
      have hunfold : blocksFrom r reports s (k :: ks')
          = moduleBlock k s (s + r) (reports k) ++ blocksFrom r reports (s + r) ks' := rfl
      rw [hunfold, List.map_append]
      rcases eq_or_ne ks' [] with rfl | hne'
      · rw [show blocksFrom r reports (s + r) ([] : List String) = [] from rfl,
            List.map_nil, List.append_nil]
        refine ⟨hblock.1, hblock.2.1, ?_⟩
        rw [hblock.2.2]
        norm_num
      · have hrest := ih (s + r)
          (fun k' hk' => hrep k' (List.mem_cons.mpr (Or.inr hk'))) hne'
        refine ⟨?_, ?_, ?_⟩
        · rw [List.chain'_append]
          refine ⟨hblock.1, hrest.1, ?_⟩
          intro x hx y hy
          rw [hblock.2.2, Option.mem_def, Option.some_inj] at hx
          rw [hrest.2.1, Option.mem_def, Option.some_inj] at hy
          rw [← hx, ← hy]
        · rw [List.head?_append, hblock.2.1]
          rfl
        · rw [List.getLast?_append, hrest.2.2]
          have harith : s + r + (ks'.length : ℚ) * r
              = s + ((k :: ks').length : ℚ) * r := by
            push_cast [List.length_cons]
            ring
          rw [harith]
          rfl

/-! ## C4 -/

/-- C4: for every non-empty filtered selection, assuming each module reports
its internal progress as a non-decreasing sequence in `[0, 100]`, the
sequence of percent values delivered to the progress callback during one
run is monotonically non-decreasing, starts at 0 (tech-detection start) and
ends at 100 (scan complete). -/
theorem runScan_progress_monotone (selected : List String)
    (reports : String → List (ℚ × Option String))
    (hne : filterModules selected ≠ [])
    (hrep : ∀ k ∈ filterModules selected,
      ((reports k).map Prod.fst).Chain' (· ≤ ·) ∧
      ∀ p ∈ (reports k).map Prod.fst, 0 ≤ p ∧ p ≤ 100) :
    (progressPercents selected reports).Chain' (· ≤ ·) ∧
    (progressPercents selected reports).head? = some 0 ∧
    (progressPercents selected reports).getLast? = some 100 := by
  have hn : 0 < (filterModules selected).length := List.length_pos.mpr hne
  have hnq : (0 : ℚ) < ((filterModules selected).length : ℚ) := by exact_mod_cast hn
  have hr0 : (0 : ℚ) ≤ 90 / ((filterModules selected).length : ℚ) := by positivity
  have hshape : progressPercents selected reports
      = (0 : ℤ) :: (5 : ℤ)
          :: ((blocksFrom (90 / ((filterModules selected).length : ℚ))
                reports 5 (filterModules selected)).map Prod.fst
              ++ [(95 : ℤ), (100 : ℤ)]) := by
    simp [progressPercents, runScanEvents, hn, List.map_append]
  have hblocks := blocksFrom_props (90 / ((filterModules selected).length : ℚ))
    reports hr0 (filterModules selected) 5 hrep hne
  have hfive : (⌊(5 : ℚ)⌋ : ℤ) = 5 := by norm_num
  have hninvq : ((filterModules selected).length : ℚ)
      * (90 / ((filterModules selected).length : ℚ)) = 90 := by
    field_simp
  have hlast : ⌊(5 : ℚ) + ((filterModules selected).length : ℚ)
      * (90 / ((filterModules selected).length : ℚ))⌋ = (95 : ℤ) := by
    rw [hninvq]
    norm_num
  rw [hshape]
  refine ⟨?_, rfl, ?_⟩
  · refine List.chain'_cons.mpr ⟨by norm_num, ?_⟩
    apply List.chain'_cons'.mpr
    constructor
    · intro y hy
      rw [List.head?_append, hblocks.2.1] at hy
      rw [Option.mem_def] at hy
      have hval : ⌊(5 : ℚ)⌋ = y := by simpa using hy
      rw [← hval, hfive]
    · rw [List.chain'_append]
      refine ⟨hblocks.1, List.chain'_cons.mpr ⟨by norm_num, List.chain'_singleton _⟩, ?_⟩
      intro x hx y hy
      rw [hblocks.2.2, Option.mem_def, Option.some_inj] at hx
      have hy' : (95 : ℤ) = y := by simpa using hy
      rw [← hy', ← hx, hlast]
  · rw [show (0 : ℤ) :: (5 : ℤ)
          :: ((blocksFrom (90 / ((filterModules selected).length : ℚ))
                reports 5 (filterModules selected)).map Prod.fst
              ++ [(95 : ℤ), (100 : ℤ)])
        = ((0 : ℤ) :: (5 : ℤ)
            :: (blocksFrom (90 / ((filterModules selected).length : ℚ))
                reports 5 (filterModules selected)).map Prod.fst)
          ++ [(95 : ℤ), (100 : ℤ)] by simp,
      List.getLast?_append]
    rfl

/-- Closed instantiation of `runScan_progress_monotone`: one module,
reporting internal progress 50 once. -/
theorem runScan_progress_monotone_witness :
    (progressPercents ["behavioral"] (fun _ => [((50 : ℚ), some "half")])).Chain' (· ≤ ·) ∧
    (progressPercents ["behavioral"] (fun _ => [((50 : ℚ), some "half")])).head? = some 0 ∧
    (progressPercents ["behavioral"] (fun _ => [((50 : ℚ), some "half")])).getLast? = some 100 :=
  runScan_progress_monotone ["behavioral"] (fun _ => [((50 : ℚ), some "half")])
    (by decide)
    (by
      intro k hk
      refine ⟨List.chain'_singleton _, ?_⟩
      intro p hp
      have hp50 : p = 50 := by simpa using hp
      rw [hp50]
      norm_num)
